import Mathlib

/-!
Verification development for the recipe-app-api core: a shallow embedding of
the recipe serializer's child-entity reconciliation (`app/recipe/serializers.py`),
together with spec-modelled definitions for the view-layer pieces (ownership
scoping, listing filters, store uniqueness/retry) whose source files are not
part of the sources at hand.

Modelling conventions:
- A principal (Django user) is a `Nat` identity.
- The child-entity store holds the `Tag` and `Ingredient` tables plus the next
  auto-increment primary keys; `Recipe` rows are threaded as explicit values
  (the serializer receives an instance and saves it back).
- `Tag.objects.get_or_create(user=u, name=nm)` is embedded as a leftmost exact
  lookup on `(user, name)` followed by an insert of a fresh row when absent.
- Django's many-to-many `add` ignores an already-present link (`m2mAdd`), and
  `clear()` empties the association list.
-/

namespace RecipeApp

/-- Row of the Tag table: primary key, owning user, case-sensitive name. -/
structure Tag where
  id : Nat
  user : Nat
  name : String
deriving DecidableEq, Repr

/-- Row of the Ingredient table: primary key, owning user, case-sensitive name. -/
structure Ingredient where
  id : Nat
  user : Nat
  name : String
deriving DecidableEq, Repr

/-- Row of the Recipe table. `tags` and `ingredient` hold the primary keys of the
associated child rows (the two many-to-many association sets, with the field
names used by the model: `tags` plural, `ingredient` singular). -/
structure Recipe where
  id : Nat
  user : Nat
  title : String
  time_minutes : Nat
  price : Nat
  link : String
  description : String
  tags : List Nat
  ingredient : List Nat
deriving DecidableEq, Repr

/-- The child-entity store: the Tag and Ingredient tables and their next
auto-increment primary keys. -/
structure Store where
  tags : List Tag
  ingredients : List Ingredient
  nextTagId : Nat
  nextIngredientId : Nat
deriving DecidableEq, Repr

/-- A submitted child descriptor, the `{'name': ...}` dict of the payload. -/
structure Descriptor where
  name : String
deriving DecidableEq, Repr

/-- One scalar key/value entry of a write payload. `user` and `id` model a
client trying to submit those keys; the serializer's validation drops them
(`id` is read-only, `user` is not a declared field). -/
inductive FieldEntry where
  | title (v : String)
  | time_minutes (v : Nat)
  | price (v : Nat)
  | link (v : String)
  | description (v : String)
  | user (v : Nat)
  | id (v : Nat)
deriving DecidableEq, Repr

/-- Whether a payload entry is a writable serializer field: `Meta.fields`
minus the read-only `id`, and `user` is not declared at all. -/
def writableScalar : FieldEntry → Bool
  | .user _ => false
  | .id _ => false
  | _ => true

/-- What Python `setattr(instance, attr, value)` does for each key, were it
reached with that key. -/
def setattrField (r : Recipe) : FieldEntry → Recipe
  | .title v => { r with title := v }
  | .time_minutes v => { r with time_minutes := v }
  | .price v => { r with price := v }
  | .link v => { r with link := v }
  | .description v => { r with description := v }
  | .user v => { r with user := v }
  | .id v => { r with id := v }

/-- The `for attr, value in validated_data.items(): setattr(...)` loop. -/
def applyScalars (r : Recipe) (l : List FieldEntry) : Recipe :=
  l.foldl setattrField r

/-- The serializer's `validated_data` for a recipe write: the two optional
nested descriptor lists (`none` = key absent from the payload) and the scalar
entries. -/
structure ValidatedData where
  tags : Option (List Descriptor)
  ingredient : Option (List Descriptor)
  scalars : List FieldEntry
deriving DecidableEq, Repr

/-- A raw client payload, before field validation. -/
structure RawPayload where
  tags : Option (List Descriptor)
  ingredient : Option (List Descriptor)
  scalars : List FieldEntry
deriving DecidableEq, Repr

/-- Field validation: only declared writable fields reach `validated_data`;
client-supplied `user` and `id` entries are dropped (`id` read-only, `user`
not a serializer field). -/
def toValidated (p : RawPayload) : ValidatedData :=
  { tags := p.tags, ingredient := p.ingredient,
    scalars := p.scalars.filter writableScalar }

/-- Django m2m `add`: appends the child key unless the link already exists. -/
def m2mAdd (l : List Nat) (x : Nat) : List Nat :=
  if x ∈ l then l else l ++ [x]

/-- The exact-match lookup predicate `user=u, name=nm` on a Tag row
(case-sensitive string equality). -/
def tagMatch (u : Nat) (nm : String) : Tag → Bool :=
  fun t => t.user == u && t.name == nm

/-- The exact-match lookup predicate `user=u, name=nm` on an Ingredient row. -/
def ingredientMatch (u : Nat) (nm : String) : Ingredient → Bool :=
  fun t => t.user == u && t.name == nm

/-- Embeds `Tag.objects.get_or_create(user=auth_user, **tag)` on its
non-racing path: leftmost lookup by exact `(user, name)` match; on a miss a
fresh row is inserted with the next primary key. Returns the new store, the
resolved row, and the `created` flag. -/
def tagGetOrCreate (s : Store) (u : Nat) (nm : String) : Store × Tag × Bool :=
  match s.tags.find? (tagMatch u nm) with
  | some t => (s, t, false)
  | none =>
    let t : Tag := { id := s.nextTagId, user := u, name := nm }
    ({ s with tags := s.tags ++ [t], nextTagId := s.nextTagId + 1 }, t, true)

/-- Embeds `Ingredient.objects.get_or_create(user=auth_user, **ingredient)`,
same shape as `tagGetOrCreate`. -/
def ingredientGetOrCreate (s : Store) (u : Nat) (nm : String) :
    Store × Ingredient × Bool :=
  match s.ingredients.find? (ingredientMatch u nm) with
  | some t => (s, t, false)
  | none =>
    let t : Ingredient := { id := s.nextIngredientId, user := u, name := nm }
    let s' := { s with ingredients := s.ingredients ++ [t], nextIngredientId := s.nextIngredientId + 1 }
    (s', t, true)

namespace RecipeSerializer

/-- Embeds `RecipeSerializer._get_or_create_tags(tags, recipe)`: for each
descriptor, get-or-create the tag for the authenticated user and add it to the
recipe's tag association set. -/
def getOrCreateTags (authUser : Nat) : Store → List Descriptor → Recipe → Store × Recipe
  | s, [], r => (s, r)
  | s, d :: ds, r =>
    let res := tagGetOrCreate s authUser d.name
    getOrCreateTags authUser res.1 ds { r with tags := m2mAdd r.tags res.2.1.id }

/-- Embeds `RecipeSerializer._get_or_create_ingredient(ingredients, recipe)`. -/
def getOrCreateIngredient (authUser : Nat) : Store → List Descriptor → Recipe → Store × Recipe
  | s, [], r => (s, r)
  | s, d :: ds, r =>
    let res := ingredientGetOrCreate s authUser d.name
    getOrCreateIngredient authUser res.1 ds
      { r with ingredient := m2mAdd r.ingredient res.2.1.id }

/-- Embeds `RecipeSerializer.update(instance, validated_data)`:

    tags = validated_data.pop('tags', None)
    ingredient = validated_data.pop('ingredient', [])
    if tags is not None: clear + _get_or_create_tags
    if ingredient is not None: clear + _get_or_create_ingredient
    setattr loop; instance.save()

`pop('tags', None)` keeps the `Option`; `pop('ingredient', [])` yields a plain
list (never `None`), embedded as `some (vd.ingredient.getD [])` so that the
dead `if ingredient is not None` guard is kept verbatim. -/
def update (s : Store) (authUser : Nat) (inst : Recipe) (vd : ValidatedData) :
    Store × Recipe :=
  let tags := vd.tags
  let ingredient : Option (List Descriptor) := some (vd.ingredient.getD [])
  let step1 :=
    match tags with
    | some ts => getOrCreateTags authUser s ts { inst with tags := [] }
    | none => (s, inst)
  let step2 :=
    match ingredient with
    | some ds => getOrCreateIngredient authUser step1.1 ds { step1.2 with ingredient := [] }
    | none => step1
  (step2.1, applyScalars step2.2 vd.scalars)

/-- Embeds `RecipeSerializer.create(validated_data)`: pop both descriptor
lists with default `[]`, create the recipe row from the scalar fields, then
reconcile tags and ingredients. `newId` is the fresh primary key the Recipe
table hands out. -/
def create (s : Store) (authUser : Nat) (vd : ValidatedData) (newId : Nat) :
    Store × Recipe :=
  let tags := vd.tags.getD []
  let ingredient := vd.ingredient.getD []
  let base : Recipe :=
    { id := newId, user := authUser, title := "", time_minutes := 0, price := 0,
      link := "", description := "", tags := [], ingredient := [] }
  let recipe := applyScalars base vd.scalars
  let step1 := getOrCreateTags authUser s tags recipe
  getOrCreateIngredient authUser step1.1 ingredient step1.2

end RecipeSerializer

/-- The tag primary keys the per-descriptor get-or-create steps resolve, in
submission order, threading the store exactly as the reconciliation loop
does. -/
def resolvedTagIds (u : Nat) : Store → List Descriptor → List Nat
  | _, [] => []
  | s, d :: ds =>
    (tagGetOrCreate s u d.name).2.1.id ::
      resolvedTagIds u (tagGetOrCreate s u d.name).1 ds

/-- The ingredient primary keys the per-descriptor get-or-create steps
resolve, in submission order. -/
def resolvedIngredientIds (u : Nat) : Store → List Descriptor → List Nat
  | _, [] => []
  | s, d :: ds =>
    (ingredientGetOrCreate s u d.name).2.1.id ::
      resolvedIngredientIds u (ingredientGetOrCreate s u d.name).1 ds

namespace RecipeSerializer

/-- Failure-aware run of `_get_or_create_tags`: `F` is the set of names whose
creation hits the §5 failure mode (a uniqueness violation whose retry also
fails), at which point the exception propagates out of the loop. Descriptors
already processed have committed their association (each m2m `add` hits the
store immediately); the returned recipe/store are the state visible at the
moment the exception escapes. -/
def getOrCreateTagsF (F : List String) (authUser : Nat) :
    Store → List Descriptor → Recipe → Store × Recipe × Bool
  | s, [], r => (s, r, true)
  | s, d :: ds, r =>
    if F.contains d.name then (s, r, false)
    else
      let res := tagGetOrCreate s authUser d.name
      getOrCreateTagsF F authUser res.1 ds { r with tags := m2mAdd r.tags res.2.1.id }

/-- Failure-aware run of `_get_or_create_ingredient`, same shape. -/
def getOrCreateIngredientF (F : List String) (authUser : Nat) :
    Store → List Descriptor → Recipe → Store × Recipe × Bool
  | s, [], r => (s, r, true)
  | s, d :: ds, r =>
    if F.contains d.name then (s, r, false)
    else
      let res := ingredientGetOrCreate s authUser d.name
      getOrCreateIngredientF F authUser res.1 ds
        { r with ingredient := m2mAdd r.ingredient res.2.1.id }

/-- Failure-aware run of `RecipeSerializer.update`. No transaction wraps the
method (the source opens none), so m2m `clear`/`add` calls take effect one by
one; when reconciliation raises, the flag is `false` and the returned state is
whatever had been committed: associations cleared and partially re-applied,
scalar `setattr`/`save` never reached. -/
def updateF (F : List String) (s : Store) (authUser : Nat) (inst : Recipe)
    (vd : ValidatedData) : Store × Recipe × Bool :=
  let tags := vd.tags
  let ingredient : Option (List Descriptor) := some (vd.ingredient.getD [])
  let step1 :=
    match tags with
    | some ts => getOrCreateTagsF F authUser s ts { inst with tags := [] }
    | none => (s, inst, true)
  if step1.2.2 then
    let step2 :=
      match ingredient with
      | some ds => getOrCreateIngredientF F authUser step1.1 ds
          { step1.2.1 with ingredient := [] }
      | none => step1
    if step2.2.2 then (step2.1, applyScalars step2.2.1 vd.scalars, true)
    else (step2.1, step2.2.1, false)
  else (step1.1, step1.2.1, false)

end RecipeSerializer

/-- One observable step of a get-or-create attempt against the store. -/
inductive ReconStep where
  | lookupStep
  | insertFailed
  | insertSucceeded
deriving DecidableEq, Repr

/-- Modelled from the spec: the `core.models` store layer and the
get-or-create call's internals are not among the sources here (only the
serializer calling it is). Per §5, the store enforces uniqueness on
`(owner_ref, name)` and the reconciler treats a uniqueness violation during
creation as a signal to retry the lookup once before propagating failure.
`s` is the table at first lookup; `conflict` says a concurrent writer
committed a conflicting row between our lookup and our insert (so the insert
raises a uniqueness violation); `sRetry` is the table seen by the retry
lookup. Returns the resolved row (`none` = failure propagates to the caller)
and the trace of steps taken. -/
def getOrCreateWithRetry (s sRetry : Store) (conflict : Bool) (u : Nat)
    (nm : String) : Option Tag × List ReconStep :=
  match s.tags.find? (tagMatch u nm) with
  | some t => (some t, [.lookupStep])
  | none =>
    if conflict then
      match sRetry.tags.find? (tagMatch u nm) with
      | some t => (some t, [.lookupStep, .insertFailed, .lookupStep])
      | none => (none, [.lookupStep, .insertFailed, .lookupStep])
    else
      (some { id := s.nextTagId, user := u, name := nm },
       [.lookupStep, .insertSucceeded])

/-- Modelled from the spec: the view layer (`views.py`, absent from the
sources) scopes every detail lookup to rows owned by the requesting
principal (§4.1); a row owned by someone else is simply not in the queryset,
so the lookup misses exactly as if the id did not exist. -/
def scopedFind {α : Type} (owner idOf : α → Nat) (recs : List α)
    (p rid : Nat) : Option α :=
  (recs.filter (fun x => owner x == p)).find? (fun x => idOf x == rid)

/-- Modelled from the spec: an update request against a detail id. On a miss
the table is untouched and the not-found outcome (`false`) is returned; on a
hit the row is replaced by `f` applied to it. -/
def scopedUpdate {α : Type} (owner idOf : α → Nat) (f : α → α)
    (recs : List α) (p rid : Nat) : List α × Bool :=
  match scopedFind owner idOf recs p rid with
  | none => (recs, false)
  | some x => (recs.map (fun y => if idOf y == rid then f x else y), true)

/-- Modelled from the spec: a delete request against a detail id, same
scoping as `scopedUpdate`. -/
def scopedDelete {α : Type} (owner idOf : α → Nat) (recs : List α)
    (p rid : Nat) : List α × Bool :=
  match scopedFind owner idOf recs p rid with
  | none => (recs, false)
  | some _ => (recs.filter (fun y => !(idOf y == rid)), true)

/-- Insert a recipe into a list kept in descending primary-key order. -/
def insertByIdDesc (r : Recipe) : List Recipe → List Recipe
  | [] => [r]
  | x :: xs => if x.id ≤ r.id then r :: x :: xs else x :: insertByIdDesc r xs

/-- Insertion sort by descending primary key, the `order_by('-id')` of the
listing queryset. -/
def sortByIdDesc : List Recipe → List Recipe
  | [] => []
  | x :: xs => insertByIdDesc x (sortByIdDesc xs)

/-- Modelled from the spec: the listing queryset construction of
`views.py` (absent from the sources), per §4.3: optional tag-id and
ingredient-id filters each keep recipes whose association set intersects the
given ids, the result is restricted to the principal's rows, ordered by
descending identifier and deduplicated. -/
def recipeListing (recs : List Recipe) (p : Nat)
    (tagIds ingIds : Option (List Nat)) : List Recipe :=
  let q1 : List Recipe :=
    match tagIds with
    | some ts => recs.filter (fun r => r.tags.any (fun t => ts.contains t))
    | none => recs
  let q2 : List Recipe :=
    match ingIds with
    | some l => q1.filter (fun r => r.ingredient.any (fun i => l.contains i))
    | none => q1
  (sortByIdDesc (q2.filter (fun r => r.user == p))).dedup

/-- The spec's uniqueness invariant on the Tag table, as a pairwise relation:
no two rows share the same `(owner_ref, name)` pair. -/
def tagUniq (a b : Tag) : Prop := ¬(a.user = b.user ∧ a.name = b.name)

/-- The spec's uniqueness invariant on the Ingredient table. -/
def ingredientUniq (a b : Ingredient) : Prop := ¬(a.user = b.user ∧ a.name = b.name)

instance : DecidableRel tagUniq := fun a b =>
  inferInstanceAs (Decidable (¬(a.user = b.user ∧ a.name = b.name)))

instance : DecidableRel ingredientUniq := fun a b =>
  inferInstanceAs (Decidable (¬(a.user = b.user ∧ a.name = b.name)))

/-! Basic lemmas about the m2m `add` operation and the lookup step. -/

theorem mem_m2mAdd {l : List Nat} {y x : Nat} : x ∈ m2mAdd l y ↔ x ∈ l ∨ x = y := by
  unfold m2mAdd
  by_cases h : y ∈ l
  · rw [if_pos h]
    constructor
    · exact fun hx => Or.inl hx
    · rintro (hx | rfl)
      · exact hx
      · exact h
  · rw [if_neg h]
    simp [List.mem_append]

theorem m2mAdd_eq_of_mem {l : List Nat} {y : Nat} (h : y ∈ l) : m2mAdd l y = l := by
  unfold m2mAdd
  rw [if_pos h]

theorem mem_m2mAdd_left {l : List Nat} {x y : Nat} (h : x ∈ l) : x ∈ m2mAdd l y :=
  mem_m2mAdd.mpr (Or.inl h)

theorem mem_m2mAdd_self {l : List Nat} {y : Nat} : y ∈ m2mAdd l y :=
  mem_m2mAdd.mpr (Or.inr rfl)

theorem m2mAdd_nodup {l : List Nat} {y : Nat} (h : l.Nodup) : (m2mAdd l y).Nodup := by
  unfold m2mAdd
  by_cases hy : y ∈ l
  · rwa [if_pos hy]
  · rw [if_neg hy]
    simp [List.nodup_append, h, hy]

theorem tagMatch_iff {u : Nat} {nm : String} {t : Tag} :
    tagMatch u nm t = true ↔ t.user = u ∧ t.name = nm := by
  simp [tagMatch]

theorem ingredientMatch_iff {u : Nat} {nm : String} {t : Ingredient} :
    ingredientMatch u nm t = true ↔ t.user = u ∧ t.name = nm := by
  simp [ingredientMatch]

theorem tagGetOrCreate_found {s : Store} {u : Nat} {nm : String} {t : Tag}
    (h : s.tags.find? (tagMatch u nm) = some t) :
    tagGetOrCreate s u nm = (s, t, false) := by
  unfold tagGetOrCreate
  rw [h]

theorem tagGetOrCreate_not_found {s : Store} {u : Nat} {nm : String}
    (h : s.tags.find? (tagMatch u nm) = none) :
    tagGetOrCreate s u nm =
      ({ s with tags := s.tags ++ [⟨s.nextTagId, u, nm⟩], nextTagId := s.nextTagId + 1 },
       ⟨s.nextTagId, u, nm⟩, true) := by
  unfold tagGetOrCreate
  rw [h]

theorem ingredientGetOrCreate_found {s : Store} {u : Nat} {nm : String} {t : Ingredient}
    (h : s.ingredients.find? (ingredientMatch u nm) = some t) :
    ingredientGetOrCreate s u nm = (s, t, false) := by
  unfold ingredientGetOrCreate
  rw [h]

theorem ingredientGetOrCreate_not_found {s : Store} {u : Nat} {nm : String}
    (h : s.ingredients.find? (ingredientMatch u nm) = none) :
    ingredientGetOrCreate s u nm =
      ({ s with ingredients := s.ingredients ++ [⟨s.nextIngredientId, u, nm⟩], nextIngredientId := s.nextIngredientId + 1 },
       ⟨s.nextIngredientId, u, nm⟩, true) := by
  unfold ingredientGetOrCreate
  rw [h]

theorem tagGetOrCreate_user_name (s : Store) (u : Nat) (nm : String) :
    (tagGetOrCreate s u nm).2.1.user = u ∧ (tagGetOrCreate s u nm).2.1.name = nm := by
  cases h : s.tags.find? (tagMatch u nm) with
  | some t =>
    rw [tagGetOrCreate_found h]
    exact tagMatch_iff.mp (List.find?_some h)
  | none =>
    rw [tagGetOrCreate_not_found h]
    exact ⟨rfl, rfl⟩

theorem ingredientGetOrCreate_user_name (s : Store) (u : Nat) (nm : String) :
    (ingredientGetOrCreate s u nm).2.1.user = u ∧
      (ingredientGetOrCreate s u nm).2.1.name = nm := by
  cases h : s.ingredients.find? (ingredientMatch u nm) with
  | some t =>
    rw [ingredientGetOrCreate_found h]
    exact ingredientMatch_iff.mp (List.find?_some h)
  | none =>
    rw [ingredientGetOrCreate_not_found h]
    exact ⟨rfl, rfl⟩

theorem tagGetOrCreate_fst_tags (s : Store) (u : Nat) (nm : String) :
    ∃ ext, (tagGetOrCreate s u nm).1.tags = s.tags ++ ext ∧
      ∀ t ∈ ext, t.user = u ∧ t.name = nm := by
  cases h : s.tags.find? (tagMatch u nm) with
  | some t =>
    rw [tagGetOrCreate_found h]
    exact ⟨[], by simp⟩
  | none =>
    rw [tagGetOrCreate_not_found h]
    refine ⟨[⟨s.nextTagId, u, nm⟩], rfl, ?_⟩
    intro t ht
    rw [List.mem_singleton] at ht
    subst ht
    exact ⟨rfl, rfl⟩

theorem ingredientGetOrCreate_fst_ingredients (s : Store) (u : Nat) (nm : String) :
    ∃ ext, (ingredientGetOrCreate s u nm).1.ingredients = s.ingredients ++ ext ∧
      ∀ t ∈ ext, t.user = u ∧ t.name = nm := by
  cases h : s.ingredients.find? (ingredientMatch u nm) with
  | some t =>
    rw [ingredientGetOrCreate_found h]
    exact ⟨[], by simp⟩
  | none =>
    rw [ingredientGetOrCreate_not_found h]
    refine ⟨[⟨s.nextIngredientId, u, nm⟩], rfl, ?_⟩
    intro t ht
    rw [List.mem_singleton] at ht
    subst ht
    exact ⟨rfl, rfl⟩

theorem tagGetOrCreate_mem_result (s : Store) (u : Nat) (nm : String) :
    (tagGetOrCreate s u nm).2.1 ∈ (tagGetOrCreate s u nm).1.tags := by
  cases h : s.tags.find? (tagMatch u nm) with
  | some t =>
    rw [tagGetOrCreate_found h]
    exact List.mem_of_find?_eq_some h
  | none =>
    rw [tagGetOrCreate_not_found h]
    simp

theorem ingredientGetOrCreate_mem_result (s : Store) (u : Nat) (nm : String) :
    (ingredientGetOrCreate s u nm).2.1 ∈ (ingredientGetOrCreate s u nm).1.ingredients := by
  cases h : s.ingredients.find? (ingredientMatch u nm) with
  | some t =>
    rw [ingredientGetOrCreate_found h]
    exact List.mem_of_find?_eq_some h
  | none =>
    rw [ingredientGetOrCreate_not_found h]
    simp

/-! Lemmas about the reconciliation loops `_get_or_create_tags` and
`_get_or_create_ingredient`. -/

theorem goc_tags_nil (u : Nat) (s : Store) (r : Recipe) :
    RecipeSerializer.getOrCreateTags u s [] r = (s, r) := rfl

theorem goc_tags_cons (u : Nat) (s : Store) (d : Descriptor) (ds : List Descriptor)
    (r : Recipe) :
    RecipeSerializer.getOrCreateTags u s (d :: ds) r =
      RecipeSerializer.getOrCreateTags u (tagGetOrCreate s u d.name).1 ds
        { r with tags := m2mAdd r.tags (tagGetOrCreate s u d.name).2.1.id } := rfl

theorem goc_ingredient_nil (u : Nat) (s : Store) (r : Recipe) :
    RecipeSerializer.getOrCreateIngredient u s [] r = (s, r) := rfl

theorem goc_ingredient_cons (u : Nat) (s : Store) (d : Descriptor) (ds : List Descriptor)
    (r : Recipe) :
    RecipeSerializer.getOrCreateIngredient u s (d :: ds) r =
      RecipeSerializer.getOrCreateIngredient u (ingredientGetOrCreate s u d.name).1 ds
        { r with ingredient := m2mAdd r.ingredient (ingredientGetOrCreate s u d.name).2.1.id } := rfl

theorem resolvedTagIds_cons (u : Nat) (s : Store) (d : Descriptor) (ds : List Descriptor) :
    resolvedTagIds u s (d :: ds) =
      (tagGetOrCreate s u d.name).2.1.id ::
        resolvedTagIds u (tagGetOrCreate s u d.name).1 ds := rfl

theorem resolvedIngredientIds_cons (u : Nat) (s : Store) (d : Descriptor)
    (ds : List Descriptor) :
    resolvedIngredientIds u s (d :: ds) =
      (ingredientGetOrCreate s u d.name).2.1.id ::
        resolvedIngredientIds u (ingredientGetOrCreate s u d.name).1 ds := rfl

/-- The tag table only grows during tag reconciliation, by rows owned by the
acting principal. -/
theorem goc_tags_fst_tags (u : Nat) (ds : List Descriptor) :
    ∀ (s : Store) (r : Recipe),
      ∃ ext, (RecipeSerializer.getOrCreateTags u s ds r).1.tags = s.tags ++ ext ∧
        ∀ t ∈ ext, t.user = u := by
  induction ds with
  | nil =>
    intro s r
    exact ⟨[], by simp [goc_tags_nil]⟩
  | cons d ds ih =>
    intro s r
    rw [goc_tags_cons]
    obtain ⟨e1, he1, ho1⟩ := tagGetOrCreate_fst_tags s u d.name
    obtain ⟨e2, he2, ho2⟩ := ih (tagGetOrCreate s u d.name).1
      { r with tags := m2mAdd r.tags (tagGetOrCreate s u d.name).2.1.id }
    refine ⟨e1 ++ e2, ?_, ?_⟩
    · rw [he2, he1, List.append_assoc]
    · intro t ht
      rcases List.mem_append.mp ht with h | h
      · exact (ho1 t h).1
      · exact ho2 t h

/-- The ingredient table only grows during ingredient reconciliation, by rows
owned by the acting principal. -/
theorem goc_ingredient_fst_ingredients (u : Nat) (ds : List Descriptor) :
    ∀ (s : Store) (r : Recipe),
      ∃ ext, (RecipeSerializer.getOrCreateIngredient u s ds r).1.ingredients =
        s.ingredients ++ ext ∧ ∀ t ∈ ext, t.user = u := by
  induction ds with
  | nil =>
    intro s r
    exact ⟨[], by simp [goc_ingredient_nil]⟩
  | cons d ds ih =>
    intro s r
    rw [goc_ingredient_cons]
    obtain ⟨e1, he1, ho1⟩ := ingredientGetOrCreate_fst_ingredients s u d.name
    obtain ⟨e2, he2, ho2⟩ := ih (ingredientGetOrCreate s u d.name).1
      { r with ingredient := m2mAdd r.ingredient (ingredientGetOrCreate s u d.name).2.1.id }
    refine ⟨e1 ++ e2, ?_, ?_⟩
    · rw [he2, he1, List.append_assoc]
    · intro t ht
      rcases List.mem_append.mp ht with h | h
      · exact (ho1 t h).1
      · exact ho2 t h

/-- Tag reconciliation never touches the recipe's scalar fields, its
ingredient associations, its id or its owner. -/
theorem goc_tags_snd_frame (u : Nat) (ds : List Descriptor) :
    ∀ (s : Store) (r : Recipe),
      (RecipeSerializer.getOrCreateTags u s ds r).2.ingredient = r.ingredient ∧
      (RecipeSerializer.getOrCreateTags u s ds r).2.user = r.user ∧
      (RecipeSerializer.getOrCreateTags u s ds r).2.id = r.id := by
  induction ds with
  | nil =>
    intro s r
    simp [goc_tags_nil]
  | cons d ds ih =>
    intro s r
    rw [goc_tags_cons]
    exact ih (tagGetOrCreate s u d.name).1
      { r with tags := m2mAdd r.tags (tagGetOrCreate s u d.name).2.1.id }

/-- Ingredient reconciliation never touches the recipe's scalar fields, its
tag associations, its id or its owner. -/
theorem goc_ingredient_snd_frame (u : Nat) (ds : List Descriptor) :
    ∀ (s : Store) (r : Recipe),
      (RecipeSerializer.getOrCreateIngredient u s ds r).2.tags = r.tags ∧
      (RecipeSerializer.getOrCreateIngredient u s ds r).2.user = r.user ∧
      (RecipeSerializer.getOrCreateIngredient u s ds r).2.id = r.id := by
  induction ds with
  | nil =>
    intro s r
    simp [goc_ingredient_nil]
  | cons d ds ih =>
    intro s r
    rw [goc_ingredient_cons]
    exact ih (ingredientGetOrCreate s u d.name).1
      { r with ingredient := m2mAdd r.ingredient (ingredientGetOrCreate s u d.name).2.1.id }

/-- An association present on the instance survives the rest of the tag
reconciliation loop. -/
theorem goc_tags_snd_tags_mono (u : Nat) (ds : List Descriptor) :
    ∀ (s : Store) (r : Recipe) (x : Nat), x ∈ r.tags →
      x ∈ (RecipeSerializer.getOrCreateTags u s ds r).2.tags := by
  induction ds with
  | nil =>
    intro s r x hx
    simpa [goc_tags_nil] using hx
  | cons d ds ih =>
    intro s r x hx
    rw [goc_tags_cons]
    exact ih _ _ x (mem_m2mAdd_left hx)

theorem goc_ingredient_snd_ingredient_mono (u : Nat) (ds : List Descriptor) :
    ∀ (s : Store) (r : Recipe) (x : Nat), x ∈ r.ingredient →
      x ∈ (RecipeSerializer.getOrCreateIngredient u s ds r).2.ingredient := by
  induction ds with
  | nil =>
    intro s r x hx
    simpa [goc_ingredient_nil] using hx
  | cons d ds ih =>
    intro s r x hx
    rw [goc_ingredient_cons]
    exact ih _ _ x (mem_m2mAdd_left hx)

/-- Characterization of the tag association set produced by the
reconciliation loop: exactly the incoming associations plus the resolved
primary keys. -/
theorem goc_tags_mem_snd_tags (u : Nat) (ds : List Descriptor) :
    ∀ (s : Store) (r : Recipe) (x : Nat),
      x ∈ (RecipeSerializer.getOrCreateTags u s ds r).2.tags ↔
        x ∈ r.tags ∨ x ∈ resolvedTagIds u s ds := by
  induction ds with
  | nil =>
    intro s r x
    simp [goc_tags_nil, resolvedTagIds]
  | cons d ds ih =>
    intro s r x
    rw [goc_tags_cons, resolvedTagIds_cons, ih]
    rw [mem_m2mAdd, List.mem_cons]
    tauto

theorem goc_ingredient_mem_snd_ingredient (u : Nat) (ds : List Descriptor) :
    ∀ (s : Store) (r : Recipe) (x : Nat),
      x ∈ (RecipeSerializer.getOrCreateIngredient u s ds r).2.ingredient ↔
        x ∈ r.ingredient ∨ x ∈ resolvedIngredientIds u s ds := by
  induction ds with
  | nil =>
    intro s r x
    simp [goc_ingredient_nil, resolvedIngredientIds]
  | cons d ds ih =>
    intro s r x
    rw [goc_ingredient_cons, resolvedIngredientIds_cons, ih]
    rw [mem_m2mAdd, List.mem_cons]
    tauto

/-! Lemmas about the scalar `setattr` loop. -/

theorem applyScalars_cons (r : Recipe) (f : FieldEntry) (l : List FieldEntry) :
    applyScalars r (f :: l) = applyScalars (setattrField r f) l := rfl

/-- The scalar loop never touches the association sets. -/
theorem applyScalars_assoc_frame (l : List FieldEntry) :
    ∀ r : Recipe, (applyScalars r l).tags = r.tags ∧
      (applyScalars r l).ingredient = r.ingredient := by
  induction l with
  | nil =>
    intro r
    exact ⟨rfl, rfl⟩
  | cons f l ih =>
    intro r
    rw [applyScalars_cons]
    rcases ih (setattrField r f) with ⟨h1, h2⟩
    cases f <;> exact ⟨h1, h2⟩

/-- Applying only writable scalar entries never changes the owner or the
primary key. -/
theorem applyScalars_user_id_of_writable (l : List FieldEntry) :
    ∀ r : Recipe, (∀ f ∈ l, writableScalar f = true) →
      (applyScalars r l).user = r.user ∧ (applyScalars r l).id = r.id := by
  induction l with
  | nil =>
    intro r _
    exact ⟨rfl, rfl⟩
  | cons f l ih =>
    intro r hw
    rw [applyScalars_cons]
    have hf := hw f (List.mem_cons_self f l)
    have hrest := ih (setattrField r f) (fun g hg => hw g (List.mem_cons_of_mem f hg))
    rcases hrest with ⟨h1, h2⟩
    cases f with
    | user v => simp [writableScalar] at hf
    | id v => simp [writableScalar] at hf
    | title v => exact ⟨h1, h2⟩
    | time_minutes v => exact ⟨h1, h2⟩
    | price v => exact ⟨h1, h2⟩
    | link v => exact ⟨h1, h2⟩
    | description v => exact ⟨h1, h2⟩

theorem applyScalars_tags (l : List FieldEntry) (r : Recipe) :
    (applyScalars r l).tags = r.tags :=
  (applyScalars_assoc_frame l r).1

theorem applyScalars_ingredient (l : List FieldEntry) (r : Recipe) :
    (applyScalars r l).ingredient = r.ingredient :=
  (applyScalars_assoc_frame l r).2

theorem goc_ingredient_snd_tags (u : Nat) (ds : List Descriptor) (s : Store) (r : Recipe) :
    (RecipeSerializer.getOrCreateIngredient u s ds r).2.tags = r.tags :=
  (goc_ingredient_snd_frame u ds s r).1

theorem goc_tags_snd_ingredient (u : Nat) (ds : List Descriptor) (s : Store) (r : Recipe) :
    (RecipeSerializer.getOrCreateTags u s ds r).2.ingredient = r.ingredient :=
  (goc_tags_snd_frame u ds s r).1

/-! Claim theorems. -/

/-- C1 (code bug): the spec says that a recipe update whose payload entirely
omits the `ingredient` field leaves the existing ingredient associations
untouched, and the source's own `if ingredient is not None` guard shows the
same intent; but `update` pops `ingredient` with default `[]` (not `None`),
so the guard always fires and the associations are cleared. Here: the
instance holds ingredient association `[0]`, the payload has no `ingredient`
key (and no `tags` key), yet after the update the association set is empty. -/
theorem C1_update_without_ingredient_key_clears_ingredients :
    (RecipeSerializer.update ⟨[], [⟨0, 0, "Salt"⟩], 0, 1⟩ 0
        ⟨1, 0, "Sample recipe title", 22, 5, "", "", [], [0]⟩
        ⟨none, none, [FieldEntry.title "New recipe"]⟩).2.ingredient = [] ∧
      (⟨1, 0, "Sample recipe title", 22, 5, "", "", [], [0]⟩ : Recipe).ingredient = [0] := by
  constructor
  · rfl
  · rfl

/-- C2: an update whose payload includes a `tags` field with descriptor list
`L` replaces the recipe's tag association set with exactly the primary keys
resolved from `L` by get-or-create for the acting principal. The membership
equivalence gives both directions of the claim: every association after the
update comes from `L`, and any previously associated tag not resolved from
`L` is gone (no merge). -/
theorem C2_update_tags_is_authoritative_replacement
    (s : Store) (u : Nat) (inst : Recipe) (L : List Descriptor)
    (ing : Option (List Descriptor)) (sc : List FieldEntry) (x : Nat) :
    x ∈ (RecipeSerializer.update s u inst ⟨some L, ing, sc⟩).2.tags ↔
      x ∈ resolvedTagIds u s L := by
  simp only [RecipeSerializer.update, applyScalars_tags, goc_ingredient_snd_tags]
  simp [goc_tags_mem_snd_tags]

/-- C3: an update whose payload carries `tags: []` empties the tag
association set, while an update whose payload omits `tags` leaves the tag
association set unchanged. Stated for every instance, in particular those
with a non-empty tag set. -/
theorem C3_empty_tags_clears_and_absent_tags_preserves
    (s : Store) (u : Nat) (inst : Recipe)
    (ing : Option (List Descriptor)) (sc : List FieldEntry) :
    (RecipeSerializer.update s u inst ⟨some [], ing, sc⟩).2.tags = [] ∧
      (RecipeSerializer.update s u inst ⟨none, ing, sc⟩).2.tags = inst.tags := by
  constructor
  · simp only [RecipeSerializer.update, applyScalars_tags, goc_ingredient_snd_tags,
      goc_tags_nil]
  · simp only [RecipeSerializer.update, applyScalars_tags, goc_ingredient_snd_tags]

/-- C10: a recipe update never changes the recipe's owner or primary key,
whatever the raw payload contains: client-supplied `user` and `id` entries
are dropped by field validation (neither is a writable serializer field), and
neither reconciliation loop touches the two fields. -/
theorem C10_update_preserves_owner_and_id
    (s : Store) (u : Nat) (inst : Recipe) (p : RawPayload) :
    (RecipeSerializer.update s u inst (toValidated p)).2.user = inst.user ∧
      (RecipeSerializer.update s u inst (toValidated p)).2.id = inst.id := by
  have hwrit : ∀ f ∈ (toValidated p).scalars, writableScalar f = true := by
    intro f hf
    simp only [toValidated] at hf
    exact (List.mem_filter.mp hf).2
  cases htg : p.tags with
  | none =>
    simp only [RecipeSerializer.update, toValidated, htg]
    obtain ⟨hu, hi⟩ := applyScalars_user_id_of_writable (p.scalars.filter writableScalar) _
      (fun f hf => (List.mem_filter.mp hf).2)
    rw [hu, hi]
    obtain ⟨_, hu2, hi2⟩ := goc_ingredient_snd_frame u (p.ingredient.getD []) s
      { inst with ingredient := [] }
    simp [hu2, hi2]
  | some L =>
    simp only [RecipeSerializer.update, toValidated, htg]
    obtain ⟨hu, hi⟩ := applyScalars_user_id_of_writable (p.scalars.filter writableScalar) _
      (fun f hf => (List.mem_filter.mp hf).2)
    rw [hu, hi]
    obtain ⟨_, hu2, hi2⟩ := goc_ingredient_snd_frame u (p.ingredient.getD [])
      (RecipeSerializer.getOrCreateTags u s L { inst with tags := [] }).1
      { (RecipeSerializer.getOrCreateTags u s L { inst with tags := [] }).2 with ingredient := [] }
    rw [hu2, hi2]
    obtain ⟨_, hu3, hi3⟩ := goc_tags_snd_frame u L s { inst with tags := [] }
    simp [hu3, hi3]

/-- If some row already matches `(u, N)`, the tag reconciliation loop never
creates another `(u, N)` row: the count of matching rows is preserved. -/
theorem goc_tags_countP_match_preserved (u : Nat) (N : String) (ds : List Descriptor) :
    ∀ (s : Store) (r : Recipe), (∃ t ∈ s.tags, tagMatch u N t) →
      (RecipeSerializer.getOrCreateTags u s ds r).1.tags.countP (tagMatch u N) =
        s.tags.countP (tagMatch u N) := by
  induction ds with
  | nil =>
    intro s r _
    rw [goc_tags_nil]
  | cons d ds ih =>
    intro s r hex
    rw [goc_tags_cons]
    cases hf : s.tags.find? (tagMatch u d.name) with
    | some t =>
      rw [tagGetOrCreate_found hf]
      exact ih s _ hex
    | none =>
      rw [tagGetOrCreate_not_found hf]
      obtain ⟨t0, ht0, hm0⟩ := hex
      have hne : d.name ≠ N := by
        intro he
        rw [List.find?_eq_none] at hf
        exact hf t0 ht0 (by rw [he]; exact hm0)
      have hex' : ∃ t ∈ ({ s with tags := s.tags ++ [(⟨s.nextTagId, u, d.name⟩ : Tag)], nextTagId := s.nextTagId + 1 } : Store).tags, tagMatch u N t :=
        ⟨t0, List.mem_append_left [(⟨s.nextTagId, u, d.name⟩ : Tag)] ht0, hm0⟩
      rw [ih _ _ hex']
      rw [List.countP_append]
      have hc : tagMatch u N (⟨s.nextTagId, u, d.name⟩ : Tag) = false := by
        simp [tagMatch, hne]
      simp [hc]

/-- If some row already matches `(u, N)` and a descriptor named `N` is in the
submitted list, the loop associates an already-existing matching row with the
recipe. -/
theorem goc_tags_assoc_of_existing (u : Nat) (N : String) (ds : List Descriptor) :
    ∀ (s : Store) (r : Recipe), (∃ t ∈ s.tags, tagMatch u N t) →
      Descriptor.mk N ∈ ds →
      ∃ t ∈ s.tags, tagMatch u N t ∧
        t.id ∈ (RecipeSerializer.getOrCreateTags u s ds r).2.tags := by
  induction ds with
  | nil =>
    intro s r _ hd
    exact absurd hd (List.not_mem_nil _)
  | cons d ds ih =>
    intro s r hex hd
    rw [goc_tags_cons]
    rcases List.mem_cons.mp hd with he | hd'
    · have hdn : d.name = N := by rw [← he]
      cases hf : s.tags.find? (tagMatch u d.name) with
      | none =>
        exfalso
        obtain ⟨t0, ht0, hm0⟩ := hex
        rw [List.find?_eq_none] at hf
        exact hf t0 ht0 (by rw [hdn]; exact hm0)
      | some t0 =>
        rw [tagGetOrCreate_found hf]
        have hm := List.find?_some hf
        rw [hdn] at hm
        refine ⟨t0, List.mem_of_find?_eq_some hf, hm, ?_⟩
        exact goc_tags_snd_tags_mono u ds s _ t0.id mem_m2mAdd_self
    · cases hf : s.tags.find? (tagMatch u d.name) with
      | some t1 =>
        rw [tagGetOrCreate_found hf]
        exact ih s _ hex hd'
      | none =>
        rw [tagGetOrCreate_not_found hf]
        obtain ⟨t0, ht0, hm0⟩ := hex
        have hne : d.name ≠ N := by
          intro he2
          rw [List.find?_eq_none] at hf
          exact hf t0 ht0 (by rw [he2]; exact hm0)
        have hex2 : ∃ t ∈ ({ s with tags := s.tags ++ [(⟨s.nextTagId, u, d.name⟩ : Tag)], nextTagId := s.nextTagId + 1 } : Store).tags, tagMatch u N t :=
          ⟨t0, List.mem_append_left [(⟨s.nextTagId, u, d.name⟩ : Tag)] ht0, hm0⟩
        obtain ⟨t, htmem, htm, hid⟩ := ih _
          { r with tags := m2mAdd r.tags s.nextTagId } hex2 hd'
        rcases List.mem_append.mp htmem with h | h
        · exact ⟨t, h, htm, hid⟩
        · exfalso
          rw [List.mem_singleton] at h
          subst h
          exact hne (tagMatch_iff.mp htm).2

/-- C4: when a Tag row with owner `u` and exactly the submitted name `N`
already exists, a recipe write submitting the descriptor `name: N` reuses an
existing matching row (associating it with the recipe) and creates no new
`(u, N)` row: the count of matching Tag rows in the store is unchanged by the
whole reconciliation. Stated about `_get_or_create_tags`, the reconciliation
step shared by recipe create and update. -/
theorem C4_existing_tag_reused_not_duplicated
    (s : Store) (u : Nat) (L : List Descriptor) (r : Recipe) (N : String)
    (hex : ∃ t ∈ s.tags, t.user = u ∧ t.name = N)
    (hd : Descriptor.mk N ∈ L) :
    (RecipeSerializer.getOrCreateTags u s L r).1.tags.countP (tagMatch u N) =
        s.tags.countP (tagMatch u N) ∧
      ∃ t ∈ s.tags, t.user = u ∧ t.name = N ∧
        t.id ∈ (RecipeSerializer.getOrCreateTags u s L r).2.tags := by
  obtain ⟨t0, ht0, hm0⟩ := hex
  have hex' : ∃ t ∈ s.tags, tagMatch u N t := ⟨t0, ht0, tagMatch_iff.mpr hm0⟩
  constructor
  · exact goc_tags_countP_match_preserved u N L s r hex'
  · obtain ⟨t, ht, htm, hid⟩ := goc_tags_assoc_of_existing u N L s r hex' hd
    exact ⟨t, ht, (tagMatch_iff.mp htm).1, (tagMatch_iff.mp htm).2, hid⟩

/-- Witness for C4 at a concrete input: user 3 already owns `Vegan` (row 7);
submitting `name: Vegan` again leaves the matching row count unchanged. -/
theorem C4_existing_tag_reused_not_duplicated_witness :
    (RecipeSerializer.getOrCreateTags 3 ⟨[⟨7, 3, "Vegan"⟩], [], 8, 0⟩
        [⟨"Vegan"⟩] ⟨1, 3, "T", 1, 1, "", "", [], []⟩).1.tags.countP (tagMatch 3 "Vegan") =
      (⟨[⟨7, 3, "Vegan"⟩], [], 8, 0⟩ : Store).tags.countP (tagMatch 3 "Vegan") :=
  (C4_existing_tag_reused_not_duplicated ⟨[⟨7, 3, "Vegan"⟩], [], 8, 0⟩ 3
    [⟨"Vegan"⟩] ⟨1, 3, "T", 1, 1, "", "", [], []⟩ "Vegan"
    (by decide) (by decide)).1

/-- In a list that is pairwise `R`, a predicate that never holds on two
`R`-related elements holds at most once. -/
theorem countP_le_one_of_pairwise {α : Type} {l : List α} {R : α → α → Prop}
    {p : α → Bool} (h : List.Pairwise R l)
    (hp : ∀ a b, p a = true → p b = true → ¬ R a b) :
    l.countP p ≤ 1 := by
  induction l with
  | nil => simp
  | cons x xs ih =>
    rw [List.pairwise_cons] at h
    rw [List.countP_cons]
    by_cases hpx : p x = true
    · have hz : xs.countP p = 0 := by
        rw [List.countP_eq_zero]
        intro a ha hpa
        exact absurd (h.1 a ha) (hp x a hpx hpa)
      simp [hz, hpx]
    · simp only [hpx, if_false]
      simpa using ih h.2

/-- In a list that is pairwise `R`, two elements on which such a predicate
holds are equal. -/
theorem eq_of_two_matches {α : Type} {l : List α} {R : α → α → Prop}
    {p : α → Bool} (h : List.Pairwise R l)
    (hp : ∀ a b, p a = true → p b = true → ¬ R a b)
    {a b : α} (ha : a ∈ l) (hb : b ∈ l) (hpa : p a = true) (hpb : p b = true) :
    a = b := by
  induction l with
  | nil => exact absurd ha (List.not_mem_nil _)
  | cons x xs ih =>
    rw [List.pairwise_cons] at h
    rcases List.mem_cons.mp ha with rfl | ha' <;>
      rcases List.mem_cons.mp hb with hb2 | hb'
    · rw [hb2]
    · exact absurd (h.1 b hb') (hp a b hpa hpb)
    · rw [hb2] at hpb ⊢
      exact absurd (h.1 a ha') (hp x a hpb hpa)
    · exact ih h.2 ha' hb'

/-- Two rows both matching `(u, N)` violate the pairwise-uniqueness relation,
so `tagMatch` satisfies the side condition of the two previous lemmas. -/
theorem tagMatch_not_uniq (u : Nat) (N : String) :
    ∀ a b : Tag, tagMatch u N a = true → tagMatch u N b = true → ¬ tagUniq a b := by
  intro a b ha hb
  obtain ⟨hau, han⟩ := tagMatch_iff.mp ha
  obtain ⟨hbu, hbn⟩ := tagMatch_iff.mp hb
  unfold tagUniq
  intro hu
  exact hu ⟨by rw [hau, hbu], by rw [han, hbn]⟩

theorem ingredientMatch_not_uniq (u : Nat) (N : String) :
    ∀ a b : Ingredient, ingredientMatch u N a = true → ingredientMatch u N b = true →
      ¬ ingredientUniq a b := by
  intro a b ha hb
  obtain ⟨hau, han⟩ := ingredientMatch_iff.mp ha
  obtain ⟨hbu, hbn⟩ := ingredientMatch_iff.mp hb
  unfold ingredientUniq
  intro hu
  exact hu ⟨by rw [hau, hbu], by rw [han, hbn]⟩

/-- Tag reconciliation preserves the uniqueness invariant of the Tag table:
a row is only ever inserted after the lookup for its `(user, name)` pair
missed. -/
theorem goc_tags_pairwise_preserved (u : Nat) (ds : List Descriptor) :
    ∀ (s : Store) (r : Recipe), List.Pairwise tagUniq s.tags →
      List.Pairwise tagUniq (RecipeSerializer.getOrCreateTags u s ds r).1.tags := by
  induction ds with
  | nil =>
    intro s r h
    rwa [goc_tags_nil]
  | cons d ds ih =>
    intro s r h
    rw [goc_tags_cons]
    cases hf : s.tags.find? (tagMatch u d.name) with
    | some t =>
      rw [tagGetOrCreate_found hf]
      exact ih s _ h
    | none =>
      rw [tagGetOrCreate_not_found hf]
      apply ih
      rw [List.pairwise_append]
      refine ⟨h, List.pairwise_singleton _ _, ?_⟩
      intro a ha b hb
      rw [List.mem_singleton] at hb
      subst hb
      rw [List.find?_eq_none] at hf
      unfold tagUniq
      intro hu
      exact hf a ha (tagMatch_iff.mpr ⟨hu.1, hu.2⟩)

theorem goc_ingredient_pairwise_preserved (u : Nat) (ds : List Descriptor) :
    ∀ (s : Store) (r : Recipe), List.Pairwise ingredientUniq s.ingredients →
      List.Pairwise ingredientUniq
        (RecipeSerializer.getOrCreateIngredient u s ds r).1.ingredients := by
  induction ds with
  | nil =>
    intro s r h
    rwa [goc_ingredient_nil]
  | cons d ds ih =>
    intro s r h
    rw [goc_ingredient_cons]
    cases hf : s.ingredients.find? (ingredientMatch u d.name) with
    | some t =>
      rw [ingredientGetOrCreate_found hf]
      exact ih s _ h
    | none =>
      rw [ingredientGetOrCreate_not_found hf]
      apply ih
      rw [List.pairwise_append]
      refine ⟨h, List.pairwise_singleton _ _, ?_⟩
      intro a ha b hb
      rw [List.mem_singleton] at hb
      subst hb
      rw [List.find?_eq_none] at hf
      unfold ingredientUniq
      intro hu
      exact hf a ha (ingredientMatch_iff.mpr ⟨hu.1, hu.2⟩)

/-- Submitting a descriptor named `N` guarantees that afterwards some
`(u, N)` row is in the table and is associated with the recipe. -/
theorem goc_tags_exists_assoc (u : Nat) (N : String) (ds : List Descriptor) :
    ∀ (s : Store) (r : Recipe), Descriptor.mk N ∈ ds →
      ∃ t ∈ (RecipeSerializer.getOrCreateTags u s ds r).1.tags,
        tagMatch u N t = true ∧
        t.id ∈ (RecipeSerializer.getOrCreateTags u s ds r).2.tags := by
  induction ds with
  | nil =>
    intro s r hd
    exact absurd hd (List.not_mem_nil _)
  | cons d ds ih =>
    intro s r hd
    rcases List.mem_cons.mp hd with he | hd'
    · have hdn : d.name = N := by rw [← he]
      rw [goc_tags_cons]
      obtain ⟨hu, hn⟩ := tagGetOrCreate_user_name s u d.name
      have hmem := tagGetOrCreate_mem_result s u d.name
      obtain ⟨ext, hext, _⟩ := goc_tags_fst_tags u ds (tagGetOrCreate s u d.name).1
        { r with tags := m2mAdd r.tags (tagGetOrCreate s u d.name).2.1.id }
      refine ⟨(tagGetOrCreate s u d.name).2.1, ?_, ?_, ?_⟩
      · rw [hext]
        exact List.mem_append_left _ hmem
      · rw [tagMatch_iff]
        exact ⟨hu, by rw [hn, hdn]⟩
      · exact goc_tags_snd_tags_mono u ds _ _ _ mem_m2mAdd_self
    · rw [goc_tags_cons]
      exact ih _ _ hd'

theorem goc_ingredient_exists_assoc (u : Nat) (N : String) (ds : List Descriptor) :
    ∀ (s : Store) (r : Recipe), Descriptor.mk N ∈ ds →
      ∃ t ∈ (RecipeSerializer.getOrCreateIngredient u s ds r).1.ingredients,
        ingredientMatch u N t = true ∧
        t.id ∈ (RecipeSerializer.getOrCreateIngredient u s ds r).2.ingredient := by
  induction ds with
  | nil =>
    intro s r hd
    exact absurd hd (List.not_mem_nil _)
  | cons d ds ih =>
    intro s r hd
    rcases List.mem_cons.mp hd with he | hd'
    · have hdn : d.name = N := by rw [← he]
      rw [goc_ingredient_cons]
      obtain ⟨hu, hn⟩ := ingredientGetOrCreate_user_name s u d.name
      have hmem := ingredientGetOrCreate_mem_result s u d.name
      obtain ⟨ext, hext, _⟩ := goc_ingredient_fst_ingredients u ds
        (ingredientGetOrCreate s u d.name).1
        { r with ingredient := m2mAdd r.ingredient (ingredientGetOrCreate s u d.name).2.1.id }
      refine ⟨(ingredientGetOrCreate s u d.name).2.1, ?_, ?_, ?_⟩
      · rw [hext]
        exact List.mem_append_left _ hmem
      · rw [ingredientMatch_iff]
        exact ⟨hu, by rw [hn, hdn]⟩
      · exact goc_ingredient_snd_ingredient_mono u ds _ _ _ mem_m2mAdd_self
    · rw [goc_ingredient_cons]
      exact ih _ _ hd'

/-- The reconciliation loop processes an appended suffix after the prefix. -/
theorem goc_tags_append (u : Nat) (L1 L2 : List Descriptor) :
    ∀ (s : Store) (r : Recipe),
      RecipeSerializer.getOrCreateTags u s (L1 ++ L2) r =
        RecipeSerializer.getOrCreateTags u
          (RecipeSerializer.getOrCreateTags u s L1 r).1 L2
          (RecipeSerializer.getOrCreateTags u s L1 r).2 := by
  induction L1 with
  | nil =>
    intro s r
    rw [List.nil_append, goc_tags_nil]
  | cons d L1 ih =>
    intro s r
    rw [List.cons_append, goc_tags_cons, goc_tags_cons]
    exact ih _ _

theorem goc_ingredient_append (u : Nat) (L1 L2 : List Descriptor) :
    ∀ (s : Store) (r : Recipe),
      RecipeSerializer.getOrCreateIngredient u s (L1 ++ L2) r =
        RecipeSerializer.getOrCreateIngredient u
          (RecipeSerializer.getOrCreateIngredient u s L1 r).1 L2
          (RecipeSerializer.getOrCreateIngredient u s L1 r).2 := by
  induction L1 with
  | nil =>
    intro s r
    rw [List.nil_append, goc_ingredient_nil]
  | cons d L1 ih =>
    intro s r
    rw [List.cons_append, goc_ingredient_cons, goc_ingredient_cons]
    exact ih _ _

/-- Processing one more descriptor whose `(u, N)` row is already present and
already associated changes neither the store nor the recipe. -/
theorem goc_tags_dup_noop (u : Nat) (N : String) (s' : Store) (r' : Recipe)
    (hpw : List.Pairwise tagUniq s'.tags)
    (hex : ∃ t ∈ s'.tags, tagMatch u N t = true ∧ t.id ∈ r'.tags) :
    RecipeSerializer.getOrCreateTags u s' [⟨N⟩] r' = (s', r') := by
  obtain ⟨te, hte, htem, hteid⟩ := hex
  cases hf : s'.tags.find? (tagMatch u N) with
  | none =>
    exfalso
    rw [List.find?_eq_none] at hf
    exact hf te hte htem
  | some tf =>
    have hf2 : tf = te :=
      eq_of_two_matches hpw (tagMatch_not_uniq u N)
        (List.mem_of_find?_eq_some hf) hte (List.find?_some hf) htem
    have hid2 : tf.id ∈ r'.tags := by
      rw [hf2]
      exact hteid
    rw [goc_tags_cons, goc_tags_nil]
    dsimp only
    rw [tagGetOrCreate_found hf]
    dsimp only
    rw [m2mAdd_eq_of_mem hid2]

theorem goc_ingredient_dup_noop (u : Nat) (N : String) (s' : Store) (r' : Recipe)
    (hpw : List.Pairwise ingredientUniq s'.ingredients)
    (hex : ∃ t ∈ s'.ingredients, ingredientMatch u N t = true ∧ t.id ∈ r'.ingredient) :
    RecipeSerializer.getOrCreateIngredient u s' [⟨N⟩] r' = (s', r') := by
  obtain ⟨te, hte, htem, hteid⟩ := hex
  cases hf : s'.ingredients.find? (ingredientMatch u N) with
  | none =>
    exfalso
    rw [List.find?_eq_none] at hf
    exact hf te hte htem
  | some tf =>
    have hf2 : tf = te :=
      eq_of_two_matches hpw (ingredientMatch_not_uniq u N)
        (List.mem_of_find?_eq_some hf) hte (List.find?_some hf) htem
    have hid2 : tf.id ∈ r'.ingredient := by
      rw [hf2]
      exact hteid
    rw [goc_ingredient_cons, goc_ingredient_nil]
    dsimp only
    rw [ingredientGetOrCreate_found hf]
    dsimp only
    rw [m2mAdd_eq_of_mem hid2]

/-- C5: duplicate descriptors within one submitted list are idempotent. For
an initially uniqueness-consistent store and a list `L` containing the
descriptor `name: N`: exactly one `(u, N)` Tag row exists after the
reconciliation (so the call created at most one such row), exactly one such
row is associated with the recipe, and submitting the same descriptor once
more at the end of the list changes nothing at all — so all duplicate
occurrences resolve to the same single entity. The same three facts hold for
the ingredient dimension. -/
theorem C5_duplicate_descriptors_resolve_to_single_entity
    (s : Store) (u : Nat) (L : List Descriptor) (r : Recipe) (N : String)
    (huniqT : List.Pairwise tagUniq s.tags)
    (huniqI : List.Pairwise ingredientUniq s.ingredients)
    (hN : Descriptor.mk N ∈ L) :
    ((RecipeSerializer.getOrCreateTags u s L r).1.tags.countP (tagMatch u N) = 1 ∧
     ((RecipeSerializer.getOrCreateTags u s L r).1.tags.filter
        (fun t => (RecipeSerializer.getOrCreateTags u s L r).2.tags.contains t.id &&
          tagMatch u N t)).length = 1 ∧
     RecipeSerializer.getOrCreateTags u s (L ++ [⟨N⟩]) r =
       RecipeSerializer.getOrCreateTags u s L r) ∧
    ((RecipeSerializer.getOrCreateIngredient u s L r).1.ingredients.countP
        (ingredientMatch u N) = 1 ∧
     ((RecipeSerializer.getOrCreateIngredient u s L r).1.ingredients.filter
        (fun t => (RecipeSerializer.getOrCreateIngredient u s L r).2.ingredient.contains t.id &&
          ingredientMatch u N t)).length = 1 ∧
     RecipeSerializer.getOrCreateIngredient u s (L ++ [⟨N⟩]) r =
       RecipeSerializer.getOrCreateIngredient u s L r) := by
  have hexT := goc_tags_exists_assoc u N L s r hN
  have hpwT := goc_tags_pairwise_preserved u L s r huniqT
  have hexI := goc_ingredient_exists_assoc u N L s r hN
  have hpwI := goc_ingredient_pairwise_preserved u L s r huniqI
  obtain ⟨te, hte, htem, hteid⟩ := hexT
  obtain ⟨ie, hie, hiem, hieid⟩ := hexI
  have hcountT : (RecipeSerializer.getOrCreateTags u s L r).1.tags.countP (tagMatch u N) = 1 := by
    apply Nat.le_antisymm
    · exact countP_le_one_of_pairwise hpwT (tagMatch_not_uniq u N)
    · exact List.countP_pos_iff.mpr ⟨te, hte, htem⟩
  have hcountI : (RecipeSerializer.getOrCreateIngredient u s L r).1.ingredients.countP
      (ingredientMatch u N) = 1 := by
    apply Nat.le_antisymm
    · exact countP_le_one_of_pairwise hpwI (ingredientMatch_not_uniq u N)
    · exact List.countP_pos_iff.mpr ⟨ie, hie, hiem⟩
  refine ⟨⟨hcountT, ?_, ?_⟩, hcountI, ?_, ?_⟩
  · apply Nat.le_antisymm
    · rw [← List.countP_eq_length_filter]
      calc (RecipeSerializer.getOrCreateTags u s L r).1.tags.countP
            (fun t => (RecipeSerializer.getOrCreateTags u s L r).2.tags.contains t.id &&
              tagMatch u N t)
          ≤ (RecipeSerializer.getOrCreateTags u s L r).1.tags.countP (tagMatch u N) :=
            List.countP_mono_left (fun a _ hpa => by
              rw [Bool.and_eq_true] at hpa
              exact hpa.2)
        _ = 1 := hcountT
    · have hmem : te ∈ (RecipeSerializer.getOrCreateTags u s L r).1.tags.filter
          (fun t => (RecipeSerializer.getOrCreateTags u s L r).2.tags.contains t.id &&
            tagMatch u N t) := by
        rw [List.mem_filter]
        refine ⟨hte, ?_⟩
        rw [Bool.and_eq_true]
        exact ⟨by simpa using hteid, htem⟩
      have := List.ne_nil_of_mem hmem
      exact Nat.succ_le_of_lt (List.length_pos.mpr this)
  · rw [goc_tags_append]
    exact goc_tags_dup_noop u N _ _ hpwT ⟨te, hte, htem, hteid⟩
  · apply Nat.le_antisymm
    · rw [← List.countP_eq_length_filter]
      calc (RecipeSerializer.getOrCreateIngredient u s L r).1.ingredients.countP
            (fun t => (RecipeSerializer.getOrCreateIngredient u s L r).2.ingredient.contains t.id &&
              ingredientMatch u N t)
          ≤ (RecipeSerializer.getOrCreateIngredient u s L r).1.ingredients.countP
              (ingredientMatch u N) :=
            List.countP_mono_left (fun a _ hpa => by
              rw [Bool.and_eq_true] at hpa
              exact hpa.2)
        _ = 1 := hcountI
    · have hmem : ie ∈ (RecipeSerializer.getOrCreateIngredient u s L r).1.ingredients.filter
          (fun t => (RecipeSerializer.getOrCreateIngredient u s L r).2.ingredient.contains t.id &&
            ingredientMatch u N t) := by
        rw [List.mem_filter]
        refine ⟨hie, ?_⟩
        rw [Bool.and_eq_true]
        exact ⟨by simpa using hieid, hiem⟩
      have := List.ne_nil_of_mem hmem
      exact Nat.succ_le_of_lt (List.length_pos.mpr this)
  · rw [goc_ingredient_append]
    exact goc_ingredient_dup_noop u N _ _ hpwI ⟨ie, hie, hiem, hieid⟩

/-- Witness for C5 at a concrete input: submitting `name: X` twice in one
write against an empty store yields exactly one matching Tag row. -/
theorem C5_duplicate_descriptors_resolve_to_single_entity_witness :
    (RecipeSerializer.getOrCreateTags 0 ⟨[], [], 0, 0⟩ [⟨"X"⟩, ⟨"X"⟩]
        ⟨1, 0, "T", 1, 1, "", "", [], []⟩).1.tags.countP (tagMatch 0 "X") = 1 :=
  (C5_duplicate_descriptors_resolve_to_single_entity ⟨[], [], 0, 0⟩ 0
    [⟨"X"⟩, ⟨"X"⟩] ⟨1, 0, "T", 1, 1, "", "", [], []⟩ "X"
    (by decide) (by decide) (by decide)).1.1

/-- C6 (spec-modelled, since the store layer and the get-or-create internals
are not among the sources): when the initial lookup misses and the insert
then hits the uniqueness constraint on `(owner_ref, name)` (a concurrent
writer got there first), the reconciler performs the lookup-then-reuse step
exactly once more — the step trace is lookup, failed insert, lookup, with
exactly two lookups — and only then propagates the outcome: the result is a
failure precisely when the retried lookup also misses. -/
theorem C6_uniqueness_violation_retries_lookup_exactly_once
    (s sRetry : Store) (u : Nat) (nm : String)
    (hmiss : s.tags.find? (tagMatch u nm) = none) :
    (getOrCreateWithRetry s sRetry true u nm).2 =
      [ReconStep.lookupStep, ReconStep.insertFailed, ReconStep.lookupStep] ∧
    (getOrCreateWithRetry s sRetry true u nm).2.countP
      (fun st => st == ReconStep.lookupStep) = 2 ∧
    ((getOrCreateWithRetry s sRetry true u nm).1 = none ↔
      sRetry.tags.find? (tagMatch u nm) = none) := by
  cases hr : sRetry.tags.find? (tagMatch u nm) with
  | some t => simp [getOrCreateWithRetry, hmiss, hr]
  | none => simp [getOrCreateWithRetry, hmiss, hr]

/-- Witness for C6 at a concrete input: user 0's lookup for `V` misses, a
concurrent writer has committed row 0, the retry finds it. -/
theorem C6_uniqueness_violation_retries_lookup_exactly_once_witness :
    (getOrCreateWithRetry ⟨[], [], 0, 0⟩ ⟨[⟨0, 0, "V"⟩], [], 1, 0⟩ true 0 "V").2 =
      [ReconStep.lookupStep, ReconStep.insertFailed, ReconStep.lookupStep] :=
  (C6_uniqueness_violation_retries_lookup_exactly_once ⟨[], [], 0, 0⟩
    ⟨[⟨0, 0, "V"⟩], [], 1, 0⟩ 0 "V" (by decide)).1

theorem gocF_tags_nil (F : List String) (u : Nat) (s : Store) (r : Recipe) :
    RecipeSerializer.getOrCreateTagsF F u s [] r = (s, r, true) := rfl

theorem gocF_tags_cons (F : List String) (u : Nat) (s : Store) (d : Descriptor)
    (ds : List Descriptor) (r : Recipe) :
    RecipeSerializer.getOrCreateTagsF F u s (d :: ds) r =
      if F.contains d.name then (s, r, false)
      else RecipeSerializer.getOrCreateTagsF F u (tagGetOrCreate s u d.name).1 ds
        { r with tags := m2mAdd r.tags (tagGetOrCreate s u d.name).2.1.id } := rfl

theorem gocF_ingredient_nil (F : List String) (u : Nat) (s : Store) (r : Recipe) :
    RecipeSerializer.getOrCreateIngredientF F u s [] r = (s, r, true) := rfl

theorem gocF_ingredient_cons (F : List String) (u : Nat) (s : Store) (d : Descriptor)
    (ds : List Descriptor) (r : Recipe) :
    RecipeSerializer.getOrCreateIngredientF F u s (d :: ds) r =
      if F.contains d.name then (s, r, false)
      else RecipeSerializer.getOrCreateIngredientF F u (ingredientGetOrCreate s u d.name).1 ds
        { r with ingredient := m2mAdd r.ingredient (ingredientGetOrCreate s u d.name).2.1.id } := rfl

/-- With no failing names, the failure-aware tag loop agrees with the plain
one and reports success. -/
theorem gocF_tags_no_failure (u : Nat) (ds : List Descriptor) :
    ∀ (s : Store) (r : Recipe),
      RecipeSerializer.getOrCreateTagsF [] u s ds r =
        ((RecipeSerializer.getOrCreateTags u s ds r).1,
         (RecipeSerializer.getOrCreateTags u s ds r).2, true) := by
  induction ds with
  | nil =>
    intro s r
    rw [gocF_tags_nil, goc_tags_nil]
  | cons d ds ih =>
    intro s r
    rw [gocF_tags_cons, goc_tags_cons]
    simp only [List.contains_nil, if_false, Bool.false_eq_true]
    exact ih _ _

theorem gocF_ingredient_no_failure (u : Nat) (ds : List Descriptor) :
    ∀ (s : Store) (r : Recipe),
      RecipeSerializer.getOrCreateIngredientF [] u s ds r =
        ((RecipeSerializer.getOrCreateIngredient u s ds r).1,
         (RecipeSerializer.getOrCreateIngredient u s ds r).2, true) := by
  induction ds with
  | nil =>
    intro s r
    rw [gocF_ingredient_nil, goc_ingredient_nil]
  | cons d ds ih =>
    intro s r
    rw [gocF_ingredient_cons, goc_ingredient_cons]
    simp only [List.contains_nil, if_false, Bool.false_eq_true]
    exact ih _ _

/-- When the first failing descriptor sits after the prefix `ds1`, the
failure-aware tag loop commits exactly the prefix work and then raises. -/
theorem gocF_tags_prefix_fail (F : List String) (u : Nat) (d : Descriptor)
    (ds2 : List Descriptor) (h2 : d.name ∈ F) (ds1 : List Descriptor) :
    ∀ (s : Store) (r : Recipe), (∀ e ∈ ds1, e.name ∉ F) →
      RecipeSerializer.getOrCreateTagsF F u s (ds1 ++ d :: ds2) r =
        ((RecipeSerializer.getOrCreateTags u s ds1 r).1,
         (RecipeSerializer.getOrCreateTags u s ds1 r).2, false) := by
  induction ds1 with
  | nil =>
    intro s r _
    rw [List.nil_append, gocF_tags_cons, goc_tags_nil]
    simp [h2]
  | cons e ds1 ih =>
    intro s r h1
    rw [List.cons_append, gocF_tags_cons, goc_tags_cons]
    have he : e.name ∉ F := h1 e (List.mem_cons_self e ds1)
    rw [if_neg (by simp [he] : ¬ (F.contains e.name = true))]
    exact ih _ _ (fun g hg => h1 g (List.mem_cons_of_mem e hg))

/-- C7 counterexample: the claim asserts that a failing recipe write leaves
the prior state unchanged, the clearing and re-association being one atomic
unit. Concretely: user 0's recipe has tag associations `[0, 1]` (rows `A`
and `B`); a payload `tags: [{name: B}, {name: C}]` whose `C` resolution hits
the persistent-failure mode fails the write, yet leaves the association set
at `[1]` — the old associations are gone and the new set `[1, 2]` (which the
same update commits when nothing fails) is not applied. -/
theorem C7_failure_leaves_partial_state_counterexample :
    (RecipeSerializer.updateF ["C"] ⟨[⟨0, 0, "A"⟩, ⟨1, 0, "B"⟩], [], 2, 0⟩ 0
        ⟨1, 0, "T", 1, 1, "", "", [0, 1], []⟩
        ⟨some [⟨"B"⟩, ⟨"C"⟩], none, []⟩).2.2 = false ∧
    (RecipeSerializer.updateF ["C"] ⟨[⟨0, 0, "A"⟩, ⟨1, 0, "B"⟩], [], 2, 0⟩ 0
        ⟨1, 0, "T", 1, 1, "", "", [0, 1], []⟩
        ⟨some [⟨"B"⟩, ⟨"C"⟩], none, []⟩).2.1.tags = [1] ∧
    ([1] : List Nat) ≠ [0, 1] ∧
    (RecipeSerializer.update ⟨[⟨0, 0, "A"⟩, ⟨1, 0, "B"⟩], [], 2, 0⟩ 0
        ⟨1, 0, "T", 1, 1, "", "", [0, 1], []⟩
        ⟨some [⟨"B"⟩, ⟨"C"⟩], none, []⟩).2.tags = [1, 2] ∧
    ([1] : List Nat) ≠ [1, 2] := by
  refine ⟨rfl, rfl, by decide, rfl, by decide⟩

/-- C7 amended: a recipe update whose child descriptors all reconcile
commits in full (the failure-aware run coincides with the plain update and
reports success); but the clearing and the re-association are not one atomic
unit: when the first failing descriptor sits after prefix `ds1` of the
submitted tag list, the write fails having already cleared the previous tag
associations and re-associated exactly the prefix — the ingredient phase and
the scalar save are never reached. -/
theorem C7_amended_success_commits_failure_clears_then_stops
    (F : List String) (s : Store) (u : Nat) (inst : Recipe)
    (tg ing : Option (List Descriptor)) (sc : List FieldEntry)
    (ds1 ds2 : List Descriptor) (d : Descriptor)
    (h1 : ∀ e ∈ ds1, e.name ∉ F) (h2 : d.name ∈ F) :
    RecipeSerializer.updateF [] s u inst ⟨tg, ing, sc⟩ =
      ((RecipeSerializer.update s u inst ⟨tg, ing, sc⟩).1,
       (RecipeSerializer.update s u inst ⟨tg, ing, sc⟩).2, true) ∧
    RecipeSerializer.updateF F s u inst ⟨some (ds1 ++ d :: ds2), ing, sc⟩ =
      ((RecipeSerializer.getOrCreateTags u s ds1 { inst with tags := [] }).1,
       (RecipeSerializer.getOrCreateTags u s ds1 { inst with tags := [] }).2, false) := by
  constructor
  · cases tg with
    | none =>
      simp only [RecipeSerializer.updateF, RecipeSerializer.update]
      rw [gocF_ingredient_no_failure]
      rfl
    | some L =>
      simp only [RecipeSerializer.updateF, RecipeSerializer.update]
      rw [gocF_tags_no_failure]
      simp only []
      rw [gocF_ingredient_no_failure]
      rfl
  · simp only [RecipeSerializer.updateF]
    rw [gocF_tags_prefix_fail F u d ds2 h2 ds1 s { inst with tags := [] } h1]
    rfl

/-- Witness for the amended C7 at a concrete input: prefix `[B]`, failing
descriptor `C`. -/
theorem C7_amended_success_commits_failure_clears_then_stops_witness :
    RecipeSerializer.updateF ["C"] ⟨[⟨0, 0, "A"⟩, ⟨1, 0, "B"⟩], [], 2, 0⟩ 0
        ⟨1, 0, "T", 1, 1, "", "", [0, 1], []⟩
        ⟨some ([⟨"B"⟩] ++ ⟨"C"⟩ :: []), none, []⟩ =
      ((RecipeSerializer.getOrCreateTags 0 ⟨[⟨0, 0, "A"⟩, ⟨1, 0, "B"⟩], [], 2, 0⟩ [⟨"B"⟩]
          ⟨1, 0, "T", 1, 1, "", "", [], []⟩).1,
       (RecipeSerializer.getOrCreateTags 0 ⟨[⟨0, 0, "A"⟩, ⟨1, 0, "B"⟩], [], 2, 0⟩ [⟨"B"⟩]
          ⟨1, 0, "T", 1, 1, "", "", [], []⟩).2, false) :=
  (C7_amended_success_commits_failure_clears_then_stops ["C"]
    ⟨[⟨0, 0, "A"⟩, ⟨1, 0, "B"⟩], [], 2, 0⟩ 0 ⟨1, 0, "T", 1, 1, "", "", [0, 1], []⟩
    none none [] [⟨"B"⟩] [] ⟨"C"⟩ (by decide) (by decide)).2

/-- C8 (spec-modelled, since the view layer is not among the sources): an
update or delete attempt by principal `p2` against a record id owned by a
different principal `p1` produces exactly the not-found outcome — the same
result as for a nonexistent id — and leaves the table unchanged, with the
record still present. Stated generically over the owner and id projections,
it covers the Recipe, Tag and Ingredient tables alike. -/
theorem C8_cross_owner_update_delete_behaves_as_not_found
    {α : Type} (owner idOf : α → Nat) (f : α → α) (recs : List α)
    (p1 p2 rid : Nat) (x : α)
    (hx : x ∈ recs) (hid : idOf x = rid) (hown : owner x = p1) (hne : p1 ≠ p2)
    (hscope : ∀ y ∈ recs, idOf y = rid → owner y = p1) :
    scopedFind owner idOf recs p2 rid = none ∧
    scopedUpdate owner idOf f recs p2 rid = (recs, false) ∧
    scopedDelete owner idOf recs p2 rid = (recs, false) ∧
    x ∈ (scopedUpdate owner idOf f recs p2 rid).1 ∧
    x ∈ (scopedDelete owner idOf recs p2 rid).1 := by
  have hfind : scopedFind owner idOf recs p2 rid = none := by
    unfold scopedFind
    rw [List.find?_eq_none]
    intro y hy
    rw [List.mem_filter] at hy
    intro hyid
    have h1 : owner y = p2 := by simpa using hy.2
    have h2 : idOf y = rid := by simpa using hyid
    apply hne
    rw [← hscope y hy.1 h2, h1]
  have hupd : scopedUpdate owner idOf f recs p2 rid = (recs, false) := by
    unfold scopedUpdate
    rw [hfind]
  have hdel : scopedDelete owner idOf recs p2 rid = (recs, false) := by
    unfold scopedDelete
    rw [hfind]
  refine ⟨hfind, hupd, hdel, ?_, ?_⟩
  · rw [hupd]
    exact hx
  · rw [hdel]
    exact hx

/-- Witness for C8 at a concrete input: recipe 5 is owned by principal 0;
principal 1's scoped lookup for id 5 misses. -/
theorem C8_cross_owner_update_delete_behaves_as_not_found_witness :
    scopedFind Recipe.user Recipe.id
      [(⟨5, 0, "R", 1, 1, "", "", [], []⟩ : Recipe)] 1 5 = none :=
  (C8_cross_owner_update_delete_behaves_as_not_found Recipe.user Recipe.id
    (fun y => y) [(⟨5, 0, "R", 1, 1, "", "", [], []⟩ : Recipe)] 0 1 5
    ⟨5, 0, "R", 1, 1, "", "", [], []⟩
    (by decide) (by decide) (by decide) (by decide) (by decide)).1

/-! Lemmas about the descending insertion sort used by the listing model. -/

theorem mem_insertByIdDesc {r x : Recipe} :
    ∀ {l : List Recipe}, x ∈ insertByIdDesc r l ↔ x = r ∨ x ∈ l := by
  intro l
  induction l with
  | nil => simp [insertByIdDesc]
  | cons y ys ih =>
    by_cases h : y.id ≤ r.id
    · simp [insertByIdDesc, h]
    · simp [insertByIdDesc, h, ih]
      tauto

theorem mem_sortByIdDesc {x : Recipe} :
    ∀ {l : List Recipe}, x ∈ sortByIdDesc l ↔ x ∈ l := by
  intro l
  induction l with
  | nil => simp [sortByIdDesc]
  | cons y ys ih =>
    simp only [sortByIdDesc, mem_insertByIdDesc, ih, List.mem_cons]

theorem pairwise_insertByIdDesc {r : Recipe} :
    ∀ {l : List Recipe}, List.Pairwise (fun a b => b.id ≤ a.id) l →
      List.Pairwise (fun a b => b.id ≤ a.id) (insertByIdDesc r l) := by
  intro l
  induction l with
  | nil =>
    intro _
    simp [insertByIdDesc]
  | cons y ys ih =>
    intro h
    rw [List.pairwise_cons] at h
    by_cases hle : y.id ≤ r.id
    · show List.Pairwise _ (if y.id ≤ r.id then r :: y :: ys else y :: insertByIdDesc r ys)
      rw [if_pos hle]
      rw [List.pairwise_cons]
      constructor
      · intro b hb
        rcases List.mem_cons.mp hb with rfl | hb'
        · exact hle
        · exact Nat.le_trans (h.1 b hb') hle
      · rw [List.pairwise_cons]
        exact h
    · show List.Pairwise _ (if y.id ≤ r.id then r :: y :: ys else y :: insertByIdDesc r ys)
      rw [if_neg hle]
      rw [List.pairwise_cons]
      constructor
      · intro b hb
        rcases mem_insertByIdDesc.mp hb with rfl | hb'
        · exact Nat.le_of_not_le hle
        · exact h.1 b hb'
      · exact ih h.2

theorem pairwise_sortByIdDesc :
    ∀ l : List Recipe, List.Pairwise (fun a b => b.id ≤ a.id) (sortByIdDesc l) := by
  intro l
  induction l with
  | nil => simp [sortByIdDesc]
  | cons y ys ih => exact pairwise_insertByIdDesc ih

/-- C9 (spec-modelled, since the view layer is not among the sources): a
recipe listing for principal `p` contains exactly the principal's recipes
that pass every filter present — tag-set intersecting the given tag ids and
ingredient-set intersecting the given ingredient ids, each required only
when supplied, so with no filters it is exactly all of `p`'s recipes — with
no recipe appearing twice, in descending order of identifier. -/
theorem C9_listing_filters_scoped_deduplicated_descending
    (recs : List Recipe) (p : Nat) (tagIds ingIds : Option (List Nat)) (r : Recipe) :
    (r ∈ recipeListing recs p tagIds ingIds ↔
       r ∈ recs ∧ r.user = p ∧
       (∀ ts, tagIds = some ts → ∃ t ∈ r.tags, t ∈ ts) ∧
       (∀ l, ingIds = some l → ∃ i ∈ r.ingredient, i ∈ l)) ∧
    (recipeListing recs p tagIds ingIds).Nodup ∧
    List.Pairwise (fun a b => b.id ≤ a.id) (recipeListing recs p tagIds ingIds) := by
  refine ⟨?_, List.nodup_dedup _, ?_⟩
  · unfold recipeListing
    cases tagIds <;> cases ingIds <;>
      simp [List.mem_dedup, mem_sortByIdDesc, List.mem_filter, List.any_eq_true] <;>
      tauto
  · exact List.Pairwise.sublist (List.dedup_sublist _) (pairwise_sortByIdDesc _)

end RecipeApp
